import Mathlib

/-!
Verification of the segment-based dubbing timeline synthesis engine of the
EduDub video dubbing system: speaker segmentation by silence gaps, lexical
gender classification, round-robin voice allocation, duration correction,
timeline composition and per-turn failure handling.

Times are modelled as exact rationals (the source uses floating-point
seconds); text as `String`.
-/

namespace EduDub

/-- A timestamped transcript segment as produced by the transcription
provider.  The source dictionary keys are `start`, `end` and `text`;
the `end` key is rendered here as `stop` (`end` is a reserved word). -/
structure TranscriptSegment where
  start : ℚ
  stop : ℚ
  text : String
  deriving DecidableEq, Repr

/-- Running speaker indices for the tail of the segment list.
`prev` is the previous segment, `sid` its assigned speaker index.
Mirrors the loop body of `detect_speaker_changes`:
`pause = segment['start'] - segments[i-1]['end']`;
if `pause > silence_threshold` the index is incremented. -/
def ids_aux (thr : ℚ) (prev : TranscriptSegment) (sid : ℕ) :
    List TranscriptSegment → List ℕ
  | [] => []
  | s :: rest =>
      let sid' := if s.start - prev.stop > thr then sid + 1 else sid
      sid' :: ids_aux thr s sid' rest

/-- The speaker index assigned to each segment by `detect_speaker_changes`
(`speaker_id` starts at 0; the first segment performs no pause check). -/
def detect_ids (segments : List TranscriptSegment) (thr : ℚ) : List ℕ :=
  match segments with
  | [] => []
  | s :: rest => 0 :: ids_aux thr s 0 rest

/-- The Python format string `f"SPEAKER_{speaker_id:02d}"`: the index
zero-padded to at least two digits. -/
def format_speaker (n : ℕ) : String :=
  "SPEAKER_" ++ (if n < 10 then "0" ++ toString n else toString n)

/-- `detect_speaker_changes`: each segment paired with its assigned
`speaker` label. -/
def detect_speaker_changes (segments : List TranscriptSegment) (thr : ℚ) :
    List (TranscriptSegment × String) :=
  (segments.zip (detect_ids segments thr)).map (fun p => (p.1, format_speaker p.2))

/-- A speaker turn produced by the merge step. -/
structure SpeakerTurn where
  speaker : String
  start : ℚ
  stop : ℚ
  text : String
  deriving DecidableEq, Repr

/-- Modelled from the spec: the body of `merge_consecutive_speaker_segments`
(the module `speaker_diarization.py` itself is absent from the repository
snapshot; its documentation states "merge if same speaker and gap < 1
second", concatenating text with a single space and widening the window). -/
def merge_aux (cur : SpeakerTurn) :
    List (TranscriptSegment × String) → List SpeakerTurn
  | [] => [cur]
  | (s, sp) :: rest =>
      if sp = cur.speaker ∧ s.start - cur.stop < 1 then
        merge_aux ⟨cur.speaker, cur.start, s.stop, cur.text ++ " " ++ s.text⟩ rest
      else
        cur :: merge_aux ⟨sp, s.start, s.stop, s.text⟩ rest

/-- Modelled from the spec: `merge_consecutive_speaker_segments` combines
immediately consecutive labeled segments that share a speaker label and
whose gap is below 1.0s into single `SpeakerTurn`s. -/
def merge_consecutive_speaker_segments :
    List (TranscriptSegment × String) → List SpeakerTurn
  | [] => []
  | (s, sp) :: rest => merge_aux ⟨sp, s.start, s.stop, s.text⟩ rest

/-- The full Speaker Segmenter: label segments, then merge. -/
def speaker_segmenter (segments : List TranscriptSegment) (thr : ℚ) :
    List SpeakerTurn :=
  merge_consecutive_speaker_segments (detect_speaker_changes segments thr)

/-- Coarse gender label used by the classifier and the voice pools. -/
inductive Gender where
  | male
  | female
  deriving DecidableEq, Repr

/-- Modelled from the spec: the female-coded lexicon of
`detect_speaker_genders` (the module `speaker_diarization.py` is absent from
the repository snapshot; its documentation lists these keywords). -/
def female_keywords : List String :=
  ["she", "her", "mrs", "ms", "lady", "woman", "mother"]

/-- Modelled from the spec: the male-coded lexicon of
`detect_speaker_genders`. -/
def male_keywords : List String :=
  ["he", "him", "mr", "sir", "man", "father", "brother"]

/-- Splitting a character list at spaces: the model of `text.split(" ")`. -/
def words_aux (cur : List Char) : List Char → List (List Char)
  | [] => [cur.reverse]
  | c :: rest =>
      if c = ' ' then cur.reverse :: words_aux [] rest
      else words_aux (c :: cur) rest

/-- The lower-cased whitespace-separated words of a text: the model of
`text.lower().split(" ")`. -/
def lower_words (text : String) : List String :=
  (words_aux [] (text.data.map Char.toLower)).map String.mk

/-- Modelled from the spec: case-insensitive keyword hits over the
concatenated turn text (counted on whitespace-separated words, matching the
documented example where "He said she was here yesterday" scores one female
hit and one male hit). -/
def count_gender_hits (lexicon : List String) (text : String) : ℕ :=
  ((lower_words text).filter (fun w => lexicon.contains w)).length

/-- Modelled from the spec: the per-speaker decision of
`detect_speaker_genders` — the gender with strictly more lexicon hits wins;
on a tie the numeric suffix of the speaker id decides (even index male, odd
index female). -/
def detect_gender (text : String) (idx : ℕ) : Gender :=
  if count_gender_hits female_keywords text > count_gender_hits male_keywords text then
    Gender.female
  else if count_gender_hits male_keywords text > count_gender_hits female_keywords text then
    Gender.male
  else if idx % 2 = 0 then Gender.male else Gender.female

/-- A synthesizable voice drawn from the provider's pool. -/
structure VoiceHandle where
  name : String
  voiceId : String
  gender : Gender
  deriving DecidableEq, Repr

/-- Modelled from the spec: the loop body of `assign_voices_to_speakers`
(the module `speaker_voices.py` is absent from the repository snapshot).
A per-gender cursor walks each speaker, in first-seen order, to
`pool[gender][cursor % len(pool)]`, then advances. -/
def assign_voices_aux (pools : Gender → List VoiceHandle) (mc fc : ℕ) :
    List (String × Gender) → List (String × Option VoiceHandle)
  | [] => []
  | (s, g) :: rest =>
      match g with
      | Gender.male =>
          (s, (pools Gender.male).get? (mc % (pools Gender.male).length)) ::
            assign_voices_aux pools (mc + 1) fc rest
      | Gender.female =>
          (s, (pools Gender.female).get? (fc % (pools Gender.female).length)) ::
            assign_voices_aux pools mc (fc + 1) rest

/-- Modelled from the spec: `assign_voices_to_speakers`, both cursors
starting at zero. -/
def assign_voices_to_speakers (pools : Gender → List VoiceHandle)
    (speakers : List (String × Gender)) : List (String × Option VoiceHandle) :=
  assign_voices_aux pools 0 0 speakers

/-- Number of entries of a given gender in a speaker list. -/
def gcount (g : Gender) : List (String × Gender) → ℕ
  | [] => 0
  | (_, g') :: rest => (if g' = g then 1 else 0) + gcount g rest

/-- The cursor a gender starts from (helper for the closed form of the
allocator). -/
def cursor0 (g : Gender) (mc fc : ℕ) : ℕ :=
  match g with
  | Gender.male => mc
  | Gender.female => fc

/-- The Indian male voice pool from `speaker_voices.py` as documented. -/
def male_voice_pool : List VoiceHandle :=
  [⟨"Arjun", "en-IN-arjun", Gender.male⟩,
   ⟨"Rohan", "en-IN-rohan", Gender.male⟩,
   ⟨"Raj", "en-IN-raj", Gender.male⟩,
   ⟨"Vikram", "en-IN-vikram", Gender.male⟩,
   ⟨"Amit", "en-IN-amit", Gender.male⟩]

/-- The Indian female voice pool from `speaker_voices.py` as documented. -/
def female_voice_pool : List VoiceHandle :=
  [⟨"Priya", "en-IN-priya", Gender.female⟩,
   ⟨"Anjali", "en-IN-anjali", Gender.female⟩,
   ⟨"Diya", "en-IN-diya", Gender.female⟩,
   ⟨"Kavya", "en-IN-kavya", Gender.female⟩,
   ⟨"Meera", "en-IN-meera", Gender.female⟩]

/-- The documented gender-partitioned Indian voice dictionary. -/
def indian_voice_pools : Gender → List VoiceHandle
  | Gender.male => male_voice_pool
  | Gender.female => female_voice_pool

/-- Dictionary lookup `speaker_voice_map[speaker_id]` on the allocator's
output. -/
def lookup_voice (m : List (String × Option VoiceHandle)) (sid : String) :
    Option VoiceHandle :=
  match m.find? (fun p => p.1 == sid) with
  | some p => p.2
  | none => none

/-- The voice a turn is synthesized with during voice generation:
`voice = speaker_voice_map[segment['speaker']]`. -/
def voice_for_turn (m : List (String × Option VoiceHandle)) (t : SpeakerTurn) :
    Option VoiceHandle :=
  lookup_voice m t.speaker

/-- Modelled from the spec: the clamp of the tempo factor to the safe range
`[0.5, 2.0]` (documented as "speed adjusted within reasonable range
(0.5x-2.0x)"; `adjust_audio_duration` itself is absent from the repository
snapshot). -/
def clamp_factor (x : ℚ) : ℚ :=
  max (1 / 2) (min 2 x)

/-- `adjust_audio_duration`: `speed_factor = current_duration / target_duration`,
clamped. -/
def speed_factor (rawDuration targetDuration : ℚ) : ℚ :=
  clamp_factor (rawDuration / targetDuration)

/-- Duration of the clip after the pitch-preserving atempo transform at the
clamped factor: a tempo change by `f` divides the duration by `f`. -/
def corrected_duration (rawDuration targetDuration : ℚ) : ℚ :=
  rawDuration / speed_factor rawDuration targetDuration

/-- A stereo audio stream: a duration and a (left, right) sample function
over time in seconds, zero-padded outside its extent. -/
structure Audio where
  dur : ℚ
  sig : ℚ → ℚ × ℚ

/-- The ffmpeg `volume=` filter: scales both channels by the gain. -/
def volume_filter (gain : ℚ) (a : Audio) : Audio :=
  ⟨a.dur, fun t => (gain * (a.sig t).1, gain * (a.sig t).2)⟩

/-- The ffmpeg `adelay=d|d` filter: both stereo channels delayed by the same
offset `d`. -/
def adelay_filter (d : ℚ) (a : Audio) : Audio :=
  ⟨d + a.dur, fun t => if t < d then (0, 0) else a.sig (t - d)⟩

/-- Pointwise sum of a list of streams (the summing part of `amix`). -/
def sum_signals (inputs : List Audio) (t : ℚ) : ℚ × ℚ :=
  inputs.foldr (fun a s => ((a.sig t).1 + s.1, (a.sig t).2 + s.2)) (0, 0)

/-- Length of the longest input (the `duration=longest` part of `amix`). -/
def max_dur (inputs : List Audio) : ℚ :=
  inputs.foldr (fun a m => max a.dur m) 0

/-- The ffmpeg `amix=inputs=n:duration=longest` filter. -/
def amix_longest (inputs : List Audio) : Audio :=
  ⟨max_dur inputs, fun t => sum_signals inputs t⟩

/-- The delayed foreground streams of a mix plan (each clip delayed by its
target start, identically on both channels). -/
def delayed_clips (plan : List (Audio × ℚ)) : List Audio :=
  plan.map (fun p => adelay_filter p.2 p.1)

/-- `merge_audio_segments`: the documented filter graph
`[0:a]volume=0.3[bg]; [k:a]adelay=start|start[segk]; amixduration=longest`. -/
def merge_audio_segments (plan : List (Audio × ℚ)) (background : Audio) :
    Audio :=
  amix_longest (volume_filter (3 / 10) background :: delayed_clips plan)

/-- The audio a turn contributes after rendering: a synthesized clip, or
silence when the turn was degraded. -/
inductive TurnAudio where
  | voiced (clip : ℕ)
  | silence
  deriving DecidableEq, Repr

/-- Modelled from the spec: the Segment Renderer's per-turn policy for one
turn, over an oracle of provider outcomes per attempt (the renderer code is
absent from the repository snapshot).  Attempt 0 is tried; on failure the
call is retried exactly once (attempt 1); a second failure degrades the turn
to silence. -/
def render_turn (attempts : ℕ → Option ℕ) : TurnAudio :=
  match attempts 0 with
  | some c => TurnAudio.voiced c
  | none =>
      match attempts 1 with
      | some c => TurnAudio.voiced c
      | none => TurnAudio.silence

/-- All turns rendered under an outcome oracle indexed by turn and attempt. -/
def rendered_turns (o : ℕ → ℕ → Option ℕ) (n : ℕ) : List TurnAudio :=
  (List.range n).map (fun i => render_turn (o i))

/-- Modelled from the spec: the `rendering_segments` stage of the
orchestrator: per-turn failures are absorbed, so the stage always succeeds
(errors at other stages would be `Except.error`). -/
def rendering_segments_stage (o : ℕ → ℕ → Option ℕ) (n : ℕ) :
    Except String (List TurnAudio) :=
  Except.ok (rendered_turns o n)

/-! Concrete inputs used by witnesses and counterexamples. -/

/-- The four-segment scenario: inter-segment gaps 1.2s, 0.3s and 1.5s. -/
def segsC2 : List TranscriptSegment :=
  [⟨0, 5, "Hello there"⟩, ⟨31 / 5, 8, "Hi"⟩,
   ⟨83 / 10, 10, "how are you"⟩, ⟨23 / 2, 13, "great"⟩]

/-- A two-segment input with a 1.2s gap. -/
def segsW1 : List TranscriptSegment :=
  [⟨0, 5, "a"⟩, ⟨31 / 5, 8, "b"⟩]

/-- Three speakers in first-seen order, alternating genders. -/
def spkW : List (String × Gender) :=
  [("SPEAKER_00", Gender.male), ("SPEAKER_01", Gender.female),
   ("SPEAKER_02", Gender.male)]

/-- A 30-second constant background track. -/
def bgW : Audio :=
  ⟨30, fun _ => (1, 1)⟩

/-- A concrete two-clip mix plan. -/
def planW : List (Audio × ℚ) :=
  [(⟨5, fun _ => (2, 3)⟩, 0), (⟨7, fun _ => (1, 0)⟩, 13)]

/-- A render-outcome oracle whose turn 0 fails both attempts and whose other
turns succeed at the first attempt. -/
def oracleW : ℕ → ℕ → Option ℕ :=
  fun i _ => if i = 0 then none else some (10 * i)

/-! ## Helper lemmas -/

lemma ids_aux_length (thr : ℚ) (rest : List TranscriptSegment) :
    ∀ (prev : TranscriptSegment) (sid : ℕ),
      (ids_aux thr prev sid rest).length = rest.length := by
  induction rest with
  | nil => intro prev sid; rfl
  | cons s r ih => intro prev sid; simp [ids_aux, ih]

lemma ids_aux_adjacent (thr : ℚ) (rest : List TranscriptSegment) :
    ∀ (prev : TranscriptSegment) (sid p a b : ℕ) (sa sb : TranscriptSegment),
      rest.get? p = some sa → rest.get? (p + 1) = some sb →
      (ids_aux thr prev sid rest).get? p = some a →
      (ids_aux thr prev sid rest).get? (p + 1) = some b →
      b = if sb.start - sa.stop > thr then a + 1 else a := by
  induction rest with
  | nil => intro prev sid p a b sa sb h1; simp at h1
  | cons s r ih =>
      intro prev sid p a b sa sb h1 h2 h3 h4
      cases p with
      | zero =>
          simp only [List.get?] at h1 h2 h3 h4
          cases r with
          | nil => simp at h2
          | cons s2 r2 =>
              simp only [ids_aux, List.get?] at h2 h3 h4
              cases h1; cases h2; cases h3; cases h4
              rfl
      | succ p =>
          simp only [ids_aux, List.get?] at h1 h2 h3 h4
          exact ih s _ p a b sa sb h1 h2 h3 h4

lemma detect_ids_adjacent (segments : List TranscriptSegment) (thr : ℚ)
    (p a b : ℕ) (sa sb : TranscriptSegment)
    (h1 : segments.get? p = some sa) (h2 : segments.get? (p + 1) = some sb)
    (h3 : (detect_ids segments thr).get? p = some a)
    (h4 : (detect_ids segments thr).get? (p + 1) = some b) :
    b = if sb.start - sa.stop > thr then a + 1 else a := by
  cases segments with
  | nil => simp at h1
  | cons s r =>
      cases p with
      | zero =>
          simp only [detect_ids, List.get?] at h1 h2 h3 h4
          cases r with
          | nil => simp at h2
          | cons s2 r2 =>
              simp only [ids_aux, List.get?] at h2 h4
              cases h1; cases h2; cases h3; cases h4
              rfl
      | succ p =>
          simp only [detect_ids, List.get?] at h1 h2 h3 h4
          exact ids_aux_adjacent thr r s 0 p a b sa sb h1 h2 h3 h4

lemma zip_get?_eq {α β : Type} (l : List α) :
    ∀ (l' : List β) (n : ℕ) (a : α) (b : β),
      l.get? n = some a → l'.get? n = some b →
      (l.zip l').get? n = some (a, b) := by
  induction l with
  | nil => intro l' n a b h; simp at h
  | cons x xs ih =>
      intro l' n a b h1 h2
      cases l' with
      | nil => simp at h2
      | cons y ys =>
          cases n with
          | zero =>
              simp only [List.get?] at h1 h2
              cases h1; cases h2; rfl
          | succ n =>
              simp only [List.get?, List.zip_cons_cons] at h1 h2 ⊢
              exact ih ys n a b h1 h2

lemma ids_aux_chain (thr : ℚ) (rest : List TranscriptSegment) :
    ∀ (prev : TranscriptSegment) (sid : ℕ),
      List.Chain (fun a b => b = a ∨ b = a + 1) sid (ids_aux thr prev sid rest) := by
  induction rest with
  | nil => intro prev sid; exact List.Chain.nil
  | cons s r ih =>
      intro prev sid
      simp only [ids_aux]
      refine List.Chain.cons ?_ (ih s _)
      by_cases h : s.start - prev.stop > thr
      · simp [h]
      · simp [h]

lemma detect_ids_chain (segments : List TranscriptSegment) (thr : ℚ) :
    List.Chain' (fun a b : ℕ => b = a ∨ b = a + 1) (detect_ids segments thr) := by
  cases segments with
  | nil => simp [detect_ids]
  | cons s r => exact ids_aux_chain thr r s 0

lemma detect_ids_pairwise_le (segments : List TranscriptSegment) (thr : ℚ) :
    (detect_ids segments thr).Pairwise (· ≤ ·) :=
  List.chain'_iff_pairwise.mp
    ((detect_ids_chain segments thr).imp (fun a b hab => by rcases hab with h | h <;> omega))

lemma pairwise_le_get? {l : List ℕ} (h : l.Pairwise (· ≤ ·)) {p q a b : ℕ}
    (hpq : p < q) (hp : l.get? p = some a) (hq : l.get? q = some b) : a ≤ b := by
  rcases List.get?_eq_some.mp hp with ⟨hp', rfl⟩
  rcases List.get?_eq_some.mp hq with ⟨hq', rfl⟩
  exact List.pairwise_iff_get.mp h ⟨p, hp'⟩ ⟨q, hq'⟩ hpq

lemma assign_voices_aux_length (pools : Gender → List VoiceHandle)
    (l : List (String × Gender)) :
    ∀ (mc fc : ℕ), (assign_voices_aux pools mc fc l).length = l.length := by
  induction l with
  | nil => intro mc fc; rfl
  | cons x xs ih =>
      intro mc fc
      rcases x with ⟨s, g⟩
      cases g <;> simp [assign_voices_aux, ih]

lemma gcount_le_length (g : Gender) (l : List (String × Gender)) :
    gcount g l ≤ l.length := by
  induction l with
  | nil => simp [gcount]
  | cons x xs ih =>
      rcases x with ⟨s, g'⟩
      by_cases h : g' = g <;> simp [gcount, h] <;> omega

lemma gcount_take_succ (g : Gender) (l : List (String × Gender)) :
    ∀ (p : ℕ) (sp : String × Gender), l.get? p = some sp →
      gcount g (l.take (p + 1)) = gcount g (l.take p) + (if sp.2 = g then 1 else 0) := by
  induction l with
  | nil => intro p sp h; simp at h
  | cons x xs ih =>
      intro p sp h
      rcases x with ⟨s, gx⟩
      cases p with
      | zero =>
          simp only [List.get?] at h
          cases h
          by_cases hx : gx = g <;> simp [gcount, hx]
      | succ p =>
          simp only [List.get?] at h
          simp only [List.take_succ_cons, gcount]
          rw [ih p sp h]
          omega

lemma gcount_take_mono_succ (g : Gender) (l : List (String × Gender)) (p : ℕ) :
    gcount g (l.take p) ≤ gcount g (l.take (p + 1))  := by
  cases hl : l.get? p with
  | none =>
      have hlen : l.length ≤ p := List.get?_eq_none.mp hl
      rw [List.take_of_length_le hlen, List.take_of_length_le (hlen.trans (Nat.le_succ p))]
  | some sp =>
      rw [gcount_take_succ g l p sp hl]
      omega

lemma gcount_take_mono (g : Gender) (l : List (String × Gender)) {p q : ℕ}
    (hpq : p ≤ q) : gcount g (l.take p) ≤ gcount g (l.take q) := by
  induction hpq with
  | refl => exact le_rfl
  | step h ih => exact ih.trans (gcount_take_mono_succ g l _)

lemma assign_voices_aux_get? (pools : Gender → List VoiceHandle)
    (l : List (String × Gender)) :
    ∀ (mc fc p : ℕ) (sp : String × Gender), l.get? p = some sp →
      (assign_voices_aux pools mc fc l).get? p =
        some (sp.1, (pools sp.2).get?
          ((cursor0 sp.2 mc fc + gcount sp.2 (l.take p)) % (pools sp.2).length)) := by
  induction l with
  | nil => intro mc fc p sp h; simp at h
  | cons x xs ih =>
      intro mc fc p sp h
      rcases x with ⟨s, g⟩
      cases p with
      | zero =>
          simp only [List.get?] at h
          cases h
          cases g <;> simp [assign_voices_aux, gcount, cursor0]
      | succ p =>
          simp only [List.get?] at h
          cases g
          · simp only [assign_voices_aux, List.get?]
            rw [ih (mc + 1) fc p sp h]
            simp only [List.take_succ_cons, gcount]
            cases hsp : sp.2 <;> simp [cursor0, hsp, Nat.add_assoc, Nat.add_comm 1]
          · simp only [assign_voices_aux, List.get?]
            rw [ih mc (fc + 1) p sp h]
            simp only [List.take_succ_cons, gcount]
            cases hsp : sp.2 <;> simp [cursor0, hsp, Nat.add_assoc, Nat.add_comm 1]

lemma assign_voices_length (pools : Gender → List VoiceHandle)
    (speakers : List (String × Gender)) :
    (assign_voices_to_speakers pools speakers).length = speakers.length :=
  assign_voices_aux_length pools speakers 0 0

lemma assign_voices_keys (pools : Gender → List VoiceHandle)
    (l : List (String × Gender)) :
    ∀ (mc fc : ℕ), (assign_voices_aux pools mc fc l).map Prod.fst = l.map Prod.fst := by
  induction l with
  | nil => intro mc fc; rfl
  | cons x xs ih =>
      intro mc fc
      rcases x with ⟨s, g⟩
      cases g <;> simp [assign_voices_aux, ih]

lemma nodup_get?_inj {l : List VoiceHandle} (h : l.Nodup) {i j : ℕ}
    {v : VoiceHandle} (hi : l.get? i = some v) (hj : l.get? j = some v) : i = j := by
  rcases List.get?_eq_some.mp hi with ⟨hi', hiv⟩
  rcases List.get?_eq_some.mp hj with ⟨hj', hjv⟩
  have := (List.Nodup.get_inj_iff h).mp (hiv.trans hjv.symm)
  exact congrArg Fin.val this

/-! ## Claim theorems -/

/-- C1: for every ordered input, segment `i > 0` starts a new speaker turn
(its running index increments) iff `segment[i].start - segment[i-1].end`
exceeds the silence threshold, otherwise it continues the current turn; and
every segment is labeled `SPEAKER_` followed by the zero-padded running
index. -/
theorem speaker_segmenter_boundary_rule (segments : List TranscriptSegment)
    (thr : ℚ) (p a b : ℕ) (sa sb : TranscriptSegment)
    (hsa : segments.get? p = some sa) (hsb : segments.get? (p + 1) = some sb)
    (ha : (detect_ids segments thr).get? p = some a)
    (hb : (detect_ids segments thr).get? (p + 1) = some b) :
    (b = a + 1 ↔ sb.start - sa.stop > thr)
    ∧ (b = a ↔ ¬ sb.start - sa.stop > thr)
    ∧ (detect_speaker_changes segments thr).get? p = some (sa, format_speaker a) := by
  have hadj := detect_ids_adjacent segments thr p a b sa sb hsa hsb ha hb
  refine ⟨?_, ?_, ?_⟩
  · by_cases hc : sb.start - sa.stop > thr
    · simp only [hc, if_true] at hadj; simp [hc, hadj]
    · simp only [hc, if_false] at hadj; simp [hc, hadj]
  · by_cases hc : sb.start - sa.stop > thr
    · simp only [hc, if_true] at hadj; simp [hc, hadj]
    · simp only [hc, if_false] at hadj; simp [hc, hadj]
  · unfold detect_speaker_changes
    rw [List.get?_map, zip_get?_eq segments (detect_ids segments thr) p sa a hsa ha]
    rfl

/-- Witness for C1 at a concrete two-segment input with gap 1.2s and
threshold 0.8s. -/
theorem speaker_segmenter_boundary_rule_witness :
    (detect_speaker_changes segsW1 (4 / 5)).get? 0 = some (⟨0, 5, "a"⟩, "SPEAKER_00") :=
  (speaker_segmenter_boundary_rule segsW1 (4 / 5) 0 0 1 ⟨0, 5, "a"⟩ ⟨31 / 5, 8, "b"⟩
    rfl rfl rfl (by norm_num [segsW1, detect_ids, ids_aux])).2.2

/-- C10: the running speaker index never decreases — adjacent assigned
indices differ by 0 or 1, the index sequence is non-decreasing, once a
different index has appeared an earlier index never recurs, and each
boundary mints an index strictly larger than every earlier one. -/
theorem speaker_ids_never_reused (segments : List TranscriptSegment) (thr : ℚ) :
    List.Chain' (fun a b : ℕ => b = a ∨ b = a + 1) (detect_ids segments thr)
    ∧ (∀ p q a b, p < q → (detect_ids segments thr).get? p = some a →
        (detect_ids segments thr).get? q = some b → a ≤ b)
    ∧ (∀ p q r a b c, p < q → q ≤ r →
        (detect_ids segments thr).get? p = some a →
        (detect_ids segments thr).get? q = some b →
        (detect_ids segments thr).get? r = some c → a ≠ b → c ≠ a)
    ∧ (∀ p j a b c, j ≤ p →
        (detect_ids segments thr).get? p = some a →
        (detect_ids segments thr).get? (p + 1) = some b →
        b = a + 1 → (detect_ids segments thr).get? j = some c → c < b) := by
  have hpw := detect_ids_pairwise_le segments thr
  have mono : ∀ p q a b, p < q → (detect_ids segments thr).get? p = some a →
      (detect_ids segments thr).get? q = some b → a ≤ b :=
    fun p q a b hpq hp hq => pairwise_le_get? hpw hpq hp hq
  refine ⟨detect_ids_chain segments thr, mono, ?_, ?_⟩
  · intro p q r a b c hpq hqr hp hq hr hab
    rcases eq_or_lt_of_le hqr with rfl | hlt
    · rw [hq] at hr
      cases hr
      omega
    · have h1 := mono p q a b hpq hp hq
      have h2 := mono q r b c hlt hq hr
      omega
  · intro p j a b c hj hp hp1 hb hcj
    rcases eq_or_lt_of_le hj with rfl | hlt
    · rw [hp] at hcj
      cases hcj
      omega
    · have := mono j p c a hlt hcj hp
      omega

/-- C2 (counterexample): on the four-segment input with gaps 1.2s, 0.3s and
1.5s at threshold 0.8s, the Speaker Segmenter produces 3 turns but they
carry 3 distinct speakerIds, not 2 as claimed. -/
theorem segmentation_scenario_counterexample :
    (speaker_segmenter segsC2 (4 / 5)).length = 3
    ∧ ((speaker_segmenter segsC2 (4 / 5)).map SpeakerTurn.speaker).dedup.length ≠ 2 := by
  have h : speaker_segmenter segsC2 (4 / 5) =
      [⟨"SPEAKER_00", 0, 5, "Hello there"⟩,
       ⟨"SPEAKER_01", 31 / 5, 10, "Hi how are you"⟩,
       ⟨"SPEAKER_02", 23 / 2, 13, "great"⟩] := by
    norm_num [speaker_segmenter, detect_speaker_changes, detect_ids, ids_aux, segsC2,
      merge_consecutive_speaker_segments, merge_aux, format_speaker]
    decide
  rw [h]
  exact ⟨rfl, by decide⟩

/-- C2 (amended): on the four-segment input with gaps 1.2s, 0.3s and 1.5s at
threshold 0.8s, labeling followed by the merge step produces exactly 3
SpeakerTurns carrying exactly 3 distinct speakerId values (`SPEAKER_00`,
`SPEAKER_01`, `SPEAKER_02`). -/
theorem segmentation_scenario_amended :
    speaker_segmenter segsC2 (4 / 5) =
      [⟨"SPEAKER_00", 0, 5, "Hello there"⟩,
       ⟨"SPEAKER_01", 31 / 5, 10, "Hi how are you"⟩,
       ⟨"SPEAKER_02", 23 / 2, 13, "great"⟩]
    ∧ (speaker_segmenter segsC2 (4 / 5)).length = 3
    ∧ ((speaker_segmenter segsC2 (4 / 5)).map SpeakerTurn.speaker).dedup.length = 3 := by
  have h : speaker_segmenter segsC2 (4 / 5) =
      [⟨"SPEAKER_00", 0, 5, "Hello there"⟩,
       ⟨"SPEAKER_01", 31 / 5, 10, "Hi how are you"⟩,
       ⟨"SPEAKER_02", 23 / 2, 13, "great"⟩] := by
    norm_num [speaker_segmenter, detect_speaker_changes, detect_ids, ids_aux, segsC2,
      merge_consecutive_speaker_segments, merge_aux, format_speaker]
    decide
  rw [h]
  exact ⟨rfl, rfl, by decide⟩

/-- C3: the applied tempo factor is the raw/target ratio clamped to
`[0.5, 2.0]`; inside that range the corrected duration is within 50ms of the
target (here: exactly equal), and outside it the factor is clamped rather
than the input rejected — rawDuration 10s with targetDuration 2s yields
factor 2 and corrected duration 5s. -/
theorem duration_corrector_clamp (rawDuration targetDuration : ℚ)
    (hraw : 0 < rawDuration) (htgt : 0 < targetDuration) :
    speed_factor rawDuration targetDuration =
      max (1 / 2) (min 2 (rawDuration / targetDuration))
    ∧ (1 / 2 ≤ rawDuration / targetDuration → rawDuration / targetDuration ≤ 2 →
        |corrected_duration rawDuration targetDuration - targetDuration| ≤ 1 / 20)
    ∧ speed_factor 10 2 = 2 ∧ corrected_duration 10 2 = 5 := by
  refine ⟨rfl, ?_, by norm_num [speed_factor, clamp_factor],
    by norm_num [corrected_duration, speed_factor, clamp_factor]⟩
  intro hlo hhi
  have hfac : speed_factor rawDuration targetDuration = rawDuration / targetDuration := by
    simp only [speed_factor, clamp_factor]
    rw [min_eq_right hhi, max_eq_right hlo]
  have hcd : corrected_duration rawDuration targetDuration = targetDuration := by
    rw [corrected_duration, hfac]
    field_simp
  rw [hcd]
  simp only [sub_self, abs_zero]
  norm_num

/-- Witness for C3 at rawDuration 6s, targetDuration 3s (ratio 2, the
boundary of the clamp range — still applied, corrected duration exact). -/
theorem duration_corrector_clamp_witness :
    |corrected_duration 6 3 - 3| ≤ 1 / 20 :=
  (duration_corrector_clamp 6 3 (by norm_num) (by norm_num)).2.1
    (by norm_num) (by norm_num)

/-- C7: the classifier assigns the gender whose lexicon has strictly more
case-insensitive hits over the concatenated turn text; on any tie (including
zero-zero) it assigns by the numeric suffix of the speakerId — even index
male, odd index female. -/
theorem gender_classifier_rule (text : String) (idx : ℕ) :
    (count_gender_hits female_keywords text > count_gender_hits male_keywords text →
      detect_gender text idx = Gender.female)
    ∧ (count_gender_hits male_keywords text > count_gender_hits female_keywords text →
      detect_gender text idx = Gender.male)
    ∧ (count_gender_hits female_keywords text = count_gender_hits male_keywords text →
      detect_gender text idx = if idx % 2 = 0 then Gender.male else Gender.female) := by
  refine ⟨fun h => ?_, fun h => ?_, fun h => ?_⟩
  · simp [detect_gender, h]
  · have h' : ¬ count_gender_hits female_keywords text > count_gender_hits male_keywords text := by
      omega
    simp [detect_gender, h, h']
  · simp [detect_gender, h]

/-- Witness for C7: the documented example text scores one female and one
male hit; the tie falls back to the even speaker index, giving male. -/
theorem gender_classifier_rule_witness :
    detect_gender "He said she was here yesterday" 0 =
      if 0 % 2 = 0 then Gender.male else Gender.female :=
  (gender_classifier_rule "He said she was here yesterday" 0).2.2 (by decide)

/-- C9: the Gender Classifier is a deterministic function of the turn text
and the speaker index — two runs on equal inputs yield equal genders. -/
theorem gender_classifier_deterministic (t1 t2 : String) (i1 i2 : ℕ)
    (htext : t1 = t2) (hidx : i1 = i2) :
    detect_gender t1 i1 = detect_gender t2 i2 := by
  rw [htext, hidx]

/-- Witness for C9 at a concrete text and index. -/
theorem gender_classifier_deterministic_witness :
    detect_gender "she was here" 1 = detect_gender "she was here" 1 :=
  gender_classifier_deterministic "she was here" "she was here" 1 1 rfl rfl

/-- C8: a failed per-turn render is retried exactly once and a second
failure degrades only that turn to silence; the rendering stage itself
always succeeds (never moves the job to the failed state), a first-retry
success keeps the synthesized clip, and the renderer consults no attempt
beyond the first retry. -/
theorem per_turn_failure_degradation (o : ℕ → ℕ → Option ℕ) (n : ℕ) :
    rendering_segments_stage o n = Except.ok (rendered_turns o n)
    ∧ (∀ i, i < n → o i 0 = none → o i 1 = none →
        (rendered_turns o n).get? i = some TurnAudio.silence)
    ∧ (∀ i c, o i 0 = none → o i 1 = some c → render_turn (o i) = TurnAudio.voiced c)
    ∧ (∀ i c, o i 0 = some c → render_turn (o i) = TurnAudio.voiced c)
    ∧ (∀ a b : ℕ → Option ℕ, a 0 = b 0 → a 1 = b 1 → render_turn a = render_turn b) := by
  refine ⟨rfl, ?_, ?_, ?_, ?_⟩
  · intro i hi h0 h1
    simp [rendered_turns, List.getElem?_map, List.getElem?_range, hi, render_turn, h0, h1]
  · intro i c h0 h1
    simp [render_turn, h0, h1]
  · intro i c h0
    simp [render_turn, h0]
  · intro a b h0 h1
    simp only [render_turn, h0, h1]

/-- Witness for C8: under the concrete oracle whose turn 0 fails both
attempts, turn 0 of a three-turn document renders as silence. -/
theorem per_turn_failure_degradation_witness :
    (rendered_turns oracleW 3).get? 0 = some TurnAudio.silence :=
  (per_turn_failure_degradation oracleW 3).2.1 0 (by norm_num) rfl rfl

/-- C4: the j-th speaker of a gender in first-seen order receives
`pool[gender][j mod poolSize]`; when the speaker count is at most each
pool's size all assigned voices are pairwise distinct (given duplicate-free,
disjoint pools); and allocation is deterministic. -/
theorem voice_allocator_round_robin (pools : Gender → List VoiceHandle)
    (speakers : List (String × Gender)) :
    (assign_voices_to_speakers pools speakers).length = speakers.length
    ∧ (∀ (p : ℕ) (sp : String × Gender), speakers.get? p = some sp →
        (assign_voices_to_speakers pools speakers).get? p =
          some (sp.1, (pools sp.2).get?
            (gcount sp.2 (speakers.take p) % (pools sp.2).length)))
    ∧ ((∀ g, (pools g).Nodup) →
       (∀ v ∈ pools Gender.male, v ∉ pools Gender.female) →
       (∀ g, speakers.length ≤ (pools g).length) →
       ∀ (p q : ℕ) (vp vq : String × Option VoiceHandle), p ≠ q →
         (assign_voices_to_speakers pools speakers).get? p = some vp →
         (assign_voices_to_speakers pools speakers).get? q = some vq →
         vp.2 ≠ vq.2)
    ∧ assign_voices_to_speakers pools speakers = assign_voices_to_speakers pools speakers := by
  have hform : ∀ (p : ℕ) (sp : String × Gender), speakers.get? p = some sp →
      (assign_voices_to_speakers pools speakers).get? p =
        some (sp.1, (pools sp.2).get?
          (gcount sp.2 (speakers.take p) % (pools sp.2).length)) := by
    intro p sp h
    have := assign_voices_aux_get? pools speakers 0 0 p sp h
    cases hsp : sp.2 <;> rw [hsp] at this <;> simpa [cursor0, hsp] using this
  refine ⟨assign_voices_length pools speakers, hform, ?_, rfl⟩
  intro hnd hdisj hlen p q vp vq hne hp hq
  have hplen : p < speakers.length := by
    rcases List.get?_eq_some.mp hp with ⟨h', _⟩
    rwa [assign_voices_length pools speakers] at h'
  have hqlen : q < speakers.length := by
    rcases List.get?_eq_some.mp hq with ⟨h', _⟩
    rwa [assign_voices_length pools speakers] at h'
  obtain ⟨sp, hsp⟩ : ∃ sp, speakers.get? p = some sp :=
    ⟨_, List.get?_eq_some.mpr ⟨hplen, rfl⟩⟩
  obtain ⟨sq, hsq⟩ : ∃ sq, speakers.get? q = some sq :=
    ⟨_, List.get?_eq_some.mpr ⟨hqlen, rfl⟩⟩
  have hvp : vp.2 = (pools sp.2).get?
      (gcount sp.2 (speakers.take p) % (pools sp.2).length) := by
    have h := hform p sp hsp
    rw [hp] at h
    rw [Option.some.inj h]
  have hvq : vq.2 = (pools sq.2).get?
      (gcount sq.2 (speakers.take q) % (pools sq.2).length) := by
    have h := hform q sq hsq
    rw [hq] at h
    rw [Option.some.inj h]
  have hcp' : gcount sp.2 (speakers.take p) < (pools sp.2).length := by
    have h1 : gcount sp.2 (speakers.take (p + 1)) =
        gcount sp.2 (speakers.take p) + 1 := by
      rw [gcount_take_succ sp.2 speakers p sp hsp, if_pos rfl]
    have h2 : gcount sp.2 (speakers.take (p + 1)) ≤ gcount sp.2 speakers := by
      have := gcount_take_mono sp.2 speakers (Nat.succ_le_of_lt hplen)
      rwa [List.take_length] at this
    have h3 := gcount_le_length sp.2 speakers
    have h4 := hlen sp.2
    omega
  have hcq' : gcount sq.2 (speakers.take q) < (pools sq.2).length := by
    have h1 : gcount sq.2 (speakers.take (q + 1)) =
        gcount sq.2 (speakers.take q) + 1 := by
      rw [gcount_take_succ sq.2 speakers q sq hsq, if_pos rfl]
    have h2 : gcount sq.2 (speakers.take (q + 1)) ≤ gcount sq.2 speakers := by
      have := gcount_take_mono sq.2 speakers (Nat.succ_le_of_lt hqlen)
      rwa [List.take_length] at this
    have h3 := gcount_le_length sq.2 speakers
    have h4 := hlen sq.2
    omega
  rw [hvp, hvq]
  by_cases hg : sp.2 = sq.2
  · -- same gender: distinct cursor positions below the pool length
    rw [← hg] at hcq' ⊢
    intro hcontra
    have hne' : gcount sp.2 (speakers.take p) ≠ gcount sp.2 (speakers.take q) := by
      rcases Nat.lt_or_ge p q with hpq | hge
      · have h1 : gcount sp.2 (speakers.take (p + 1)) =
            gcount sp.2 (speakers.take p) + 1 := by
          rw [gcount_take_succ sp.2 speakers p sp hsp, if_pos rfl]
        have h2 : gcount sp.2 (speakers.take (p + 1)) ≤ gcount sp.2 (speakers.take q) :=
          gcount_take_mono sp.2 speakers (Nat.succ_le_of_lt hpq)
        omega
      · have hqp : q < p := Nat.lt_of_le_of_ne hge (Ne.symm hne)
        have h1 : gcount sp.2 (speakers.take (q + 1)) =
            gcount sp.2 (speakers.take q) + 1 := by
          rw [gcount_take_succ sp.2 speakers q sq hsq, if_pos hg.symm]
        have h2 : gcount sp.2 (speakers.take (q + 1)) ≤ gcount sp.2 (speakers.take p) :=
          gcount_take_mono sp.2 speakers (Nat.succ_le_of_lt hqp)
        omega
    rw [Nat.mod_eq_of_lt hcp', Nat.mod_eq_of_lt hcq'] at hcontra
    obtain ⟨v, hv⟩ : ∃ v, (pools sp.2).get? (gcount sp.2 (speakers.take p)) = some v :=
      ⟨_, List.get?_eq_some.mpr ⟨hcp', rfl⟩⟩
    rw [hv] at hcontra
    exact hne' (nodup_get?_inj (hnd sp.2) hv hcontra.symm)
  · -- different genders: the two pools are disjoint
    have hboth : (sp.2 = Gender.male ∧ sq.2 = Gender.female)
        ∨ (sp.2 = Gender.female ∧ sq.2 = Gender.male) := by
      cases h1 : sp.2 <;> cases h2 : sq.2 <;> simp_all
    intro hcontra
    have hLp : 0 < (pools sp.2).length := Nat.lt_of_le_of_lt (Nat.zero_le _) hcp'
    have hLq : 0 < (pools sq.2).length := Nat.lt_of_le_of_lt (Nat.zero_le _) hcq'
    obtain ⟨v, hv⟩ : ∃ v, (pools sp.2).get? (gcount sp.2 (speakers.take p) %
        (pools sp.2).length) = some v :=
      ⟨_, List.get?_eq_some.mpr ⟨Nat.mod_lt _ hLp, rfl⟩⟩
    obtain ⟨w, hw⟩ : ∃ w, (pools sq.2).get? (gcount sq.2 (speakers.take q) %
        (pools sq.2).length) = some w :=
      ⟨_, List.get?_eq_some.mpr ⟨Nat.mod_lt _ hLq, rfl⟩⟩
    rw [hv, hw] at hcontra
    have hvw : v = w := Option.some.inj hcontra
    have hvmem : v ∈ pools sp.2 := List.get?_mem hv
    have hwmem : w ∈ pools sq.2 := List.get?_mem hw
    rcases hboth with ⟨h1, h2⟩ | ⟨h1, h2⟩
    · rw [h1] at hvmem; rw [h2] at hwmem
      exact hdisj v hvmem (hvw ▸ hwmem)
    · rw [h1] at hvmem; rw [h2] at hwmem
      exact hdisj w hwmem (hvw ▸ hvmem)

/-- Witness for C4: the three alternating speakers drawn from the documented
Indian pools land on Arjun, Priya and Rohan — the second male speaker gets
the second male voice. -/
theorem voice_allocator_round_robin_witness :
    (assign_voices_to_speakers indian_voice_pools spkW).get? 2 =
      some ("SPEAKER_02", (indian_voice_pools Gender.male).get?
        (gcount Gender.male (spkW.take 2) % (indian_voice_pools Gender.male).length)) :=
  (voice_allocator_round_robin indian_voice_pools spkW).2.1 2
    ("SPEAKER_02", Gender.male) rfl

/-- C5: the speaker-to-voice table holds exactly one entry per input
speakerId (created once, in order), and any two turns carrying the same
speakerId are synthesized with the identical voice handle looked up from
that table. -/
theorem speaker_voice_consistency (pools : Gender → List VoiceHandle)
    (speakers : List (String × Gender)) (m : List (String × Option VoiceHandle))
    (t1 t2 : SpeakerTurn)
    (hm : m = assign_voices_to_speakers pools speakers)
    (hsame : t1.speaker = t2.speaker) :
    m.map Prod.fst = speakers.map Prod.fst
    ∧ voice_for_turn m t1 = voice_for_turn m t2 := by
  subst hm
  refine ⟨assign_voices_keys pools speakers 0 0, ?_⟩
  simp [voice_for_turn, hsame]

/-- Witness for C5: two turns of `SPEAKER_00` at different times resolve to
the same voice under the documented pools. -/
theorem speaker_voice_consistency_witness :
    (assign_voices_to_speakers indian_voice_pools spkW).map Prod.fst = spkW.map Prod.fst
    ∧ voice_for_turn (assign_voices_to_speakers indian_voice_pools spkW)
        ⟨"SPEAKER_00", 0, 5, "a"⟩ =
      voice_for_turn (assign_voices_to_speakers indian_voice_pools spkW)
        ⟨"SPEAKER_00", 16, 22, "b"⟩ :=
  speaker_voice_consistency indian_voice_pools spkW
    (assign_voices_to_speakers indian_voice_pools spkW)
    ⟨"SPEAKER_00", 0, 5, "a"⟩ ⟨"SPEAKER_00", 16, 22, "b"⟩ rfl rfl

lemma max_dur_le (inputs : List Audio) (d : ℚ) (hd : 0 ≤ d)
    (h : ∀ a ∈ inputs, a.dur ≤ d) : max_dur inputs ≤ d := by
  induction inputs with
  | nil => simpa [max_dur]
  | cons a l ih =>
      have h1 : max_dur (a :: l) = max a.dur (max_dur l) := rfl
      rw [h1]
      exact max_le (h a (by simp)) (ih fun b hb => h b (by simp [hb]))

/-- C6: the mixed output attenuates the background by the fixed gain 0.3 and
adds every foreground clip delayed by its target start (identically on both
stereo channels), and its duration is that of the longest input — the
background track spanning the video — so the mix's duration equals the
video's duration. -/
theorem timeline_compositor_spec (plan : List (Audio × ℚ)) (background : Audio)
    (videoDur : ℚ) (hbg : background.dur = videoDur) (h0 : 0 ≤ videoDur)
    (hfit : ∀ p ∈ plan, p.2 + p.1.dur ≤ videoDur) :
    (merge_audio_segments plan background).dur = videoDur
    ∧ (∀ t, (merge_audio_segments plan background).sig t =
        ((3 / 10) * (background.sig t).1 + (sum_signals (delayed_clips plan) t).1,
         (3 / 10) * (background.sig t).2 + (sum_signals (delayed_clips plan) t).2))
    ∧ (∀ p ∈ plan, ∀ t : ℚ, 0 ≤ t → (adelay_filter p.2 p.1).sig (p.2 + t) = p.1.sig t)
    ∧ (∀ p ∈ plan, ∀ t : ℚ, t < p.2 → (adelay_filter p.2 p.1).sig t = (0, 0))
    ∧ (∀ p ∈ plan, (adelay_filter p.2 p.1).dur = p.2 + p.1.dur) := by
  refine ⟨?_, fun t => rfl, ?_, ?_, fun p hp => rfl⟩
  · have hle : max_dur (delayed_clips plan) ≤ videoDur := by
      apply max_dur_le _ _ h0
      intro a ha
      simp only [delayed_clips, List.mem_map] at ha
      rcases ha with ⟨p, hp, rfl⟩
      simpa [adelay_filter] using hfit p hp
    have h1 : (merge_audio_segments plan background).dur =
        max (volume_filter (3 / 10) background).dur (max_dur (delayed_clips plan)) := rfl
    rw [h1]
    have h2 : (volume_filter (3 / 10) background).dur = background.dur := rfl
    rw [h2, hbg]
    exact max_eq_left hle
  · intro p hp t ht
    simp only [adelay_filter]
    rw [if_neg (by linarith), add_sub_cancel_left]
  · intro p hp t ht
    simp [adelay_filter, ht]

/-- Witness for C6: a two-clip plan against a 30-second background mixes to
a 30-second output. -/
theorem timeline_compositor_spec_witness :
    (merge_audio_segments planW bgW).dur = 30 :=
  (timeline_compositor_spec planW bgW 30 rfl (by norm_num) (by
      intro p hp
      simp only [planW, List.mem_cons, List.not_mem_nil, or_false] at hp
      rcases hp with rfl | rfl
      · show (0 : ℚ) + 5 ≤ 30
        norm_num
      · show (13 : ℚ) + 7 ≤ 30
        norm_num)).1

end EduDub
